import Mathlib

/-!
Shallow embedding of the EnterpriseBench ticket-evaluation pipeline
(`3_run_ticket_test.py`, `5_measure_scores.py`).

Strings are modelled as lists of characters (`Str`), so that the Python
string operations used by the scripts (`split`, `strip`, `join`, `replace`,
`upper`, substring test) become structurally recursive Lean functions that
can be reasoned about by induction.
-/

abbrev Str := List Char

/-- Characters stripped by Python's `str.strip()` (ASCII whitespace:
space, tab, newline, carriage return, vertical tab, form feed). -/
def pyWhitespaceChar (c : Char) : Bool :=
  c = ' ' || c = '\t' || c = '\n' || c = '\r' || c = Char.ofNat 11 || c = Char.ofNat 12

/-- Python `s.strip()`: drop whitespace from both ends. -/
def pyStrip (s : Str) : Str :=
  ((s.dropWhile pyWhitespaceChar).reverse.dropWhile pyWhitespaceChar).reverse

/-- Python `s.split(sep)` for a one-character separator: always returns at
least one (possibly empty) part. -/
def splitOnChar (sep : Char) : Str → List Str
  | [] => [[]]
  | c :: rest =>
    let r := splitOnChar sep rest
    if c = sep then [] :: r
    else (c :: r.headD []) :: r.tail

/-- Python `sep.join(parts)` for a one-character separator. -/
def joinSep (sep : Char) : List Str → Str
  | [] => []
  | [x] => x
  | x :: xs => x ++ sep :: joinSep sep xs

/-- Python `raw.replace("\n", ",")` (one character replaced by one character). -/
def replaceNl (s : Str) : Str :=
  s.map (fun c => if c = '\n' then ',' else c)

/-- Python `frag.startswith("#")`. -/
def startsWithHash : Str → Bool
  | [] => false
  | c :: _ => c = '#'

/-- Python `frag.split("#", 1)`: the part before the first `#` and
everything after it. -/
def splitHash1 (s : Str) : Str × Str :=
  match splitOnChar '#' s with
  | [] => ([], [])
  | c :: rest => (c, joinSep '#' rest)

/-- Python `needle in hay` (substring test). -/
def containsSub (needle hay : Str) : Bool :=
  hay.tails.any (fun t => needle.isPrefixOf t)

/-- Python `s.upper()` (per-character upper-casing). -/
def upperStr (s : Str) : Str := s.map Char.toUpper

/-- Lexicographic order on strings by code point, Python's `<=` on `str`. -/
def strLe : Str → Str → Bool
  | [], _ => true
  | _ :: _, [] => false
  | a :: as, b :: bs => if a = b then strLe as bs else decide (a < b)

/-- Python's tuple order on `(class, method)` pairs, as used by `sorted(b)`
in `write_skip`. -/
def pairLe (p q : Str × Str) : Bool :=
  if p.1 = q.1 then strLe p.2 q.2 else strLe p.1 q.1

/- ────────── skip-list persistence (`write_skip` / `load_skip` / `dtest`) ────────── -/

/-- One fragment of the `skipped_tests` field, as consumed by `load_skip`:
strip it; drop it when empty, when it starts with `#`, or when it has no
`#` at all; otherwise split at the first `#` into a (class, method) pair. -/
def parseFragment (frag : Str) : Option (Str × Str) :=
  let f := pyStrip frag
  if f.isEmpty || startsWithHash f || !(f.contains '#') then none
  else some (splitHash1 f)

/-- The core of `load_skip`: parse the raw `skipped_tests` field of the
ticket's row (newlines count as commas) into the list of well-formed
(class, method) entries.  The Python code collects them into a set; list
membership below plays the role of set membership. -/
def loadSkipField (raw : Str) : List (Str × Str) :=
  (splitOnChar ',' (replaceNl raw)).filterMap parseFragment

/-- Serialization of one Test Identity, Python's `f"{c}#{m}"`. -/
def serializeId (p : Str × Str) : Str := p.1 ++ '#' :: p.2

/-- Python `sorted(b)` on a list enumerating the set `b` of pairs. -/
def sortedPairs (b : List (Str × Str)) : List (Str × Str) :=
  b.mergeSort pairLe

/-- The value `write_skip` stores in the `skipped_tests` column:
`",".join(f"{c}#{m}" for c, m in sorted(b))`. -/
def writeSkipField (b : List (Str × Str)) : Str :=
  joinSep ',' ((sortedPairs b).map serializeId)

/-- Characters that survive the field round-trip: not the comma separator
and not the newline that `load_skip` rewrites into a comma. -/
def cleanStr (s : Str) : Bool :=
  s.all (fun c => !(c = ',') && !(c = '\n'))

/-- A well-formed Test Identity: non-empty class name without `#`, neither
component contains the list separators, and the serialized fragment has no
leading or trailing whitespace (so `strip` leaves it unchanged). -/
def wellFormedId (p : Str × Str) : Bool :=
  !p.1.isEmpty && !p.1.contains '#' && cleanStr p.1 && cleanStr p.2 &&
    !pyWhitespaceChar (p.1.headD '#') && !pyWhitespaceChar (p.2.getLastD '#')

/-- The well-formed fragments `dtest` keeps from the raw `skipped_tests`
field: stripped, non-empty, containing `#`, not starting with `#`. -/
def dtestPats (raw : Str) : List Str :=
  (((splitOnChar ',' (replaceNl raw)).map pyStrip).filter
      (fun f => !f.isEmpty)).filter
    (fun f => f.contains '#' && !startsWithHash f)

/-- The core of `dtest`: build the Maven `-Dtest` filter from the raw
`skipped_tests` field, `None` when no well-formed fragment is present,
otherwise `-Dtest=` followed by `*` and one `!`-prefixed exclusion per
fragment in sorted order. -/
def dtest (raw : Str) : Option Str :=
  let pats := dtestPats raw
  if pats.isEmpty then none
  else some ("-Dtest=".toList ++ joinSep ',' (['*'] :: (pats.mergeSort strLe).map (fun p => '!' :: p)))

/- ────────── report parser (`surefire_stats` / `red_tests`) ────────── -/

/-- One `<testcase>` node of a surefire report: its `classname` and `name`
attributes and whether it carries a `failure` or an `error` child. -/
structure TestCase where
  classname : Str
  name : Str
  hasFailure : Bool
  hasError : Bool
deriving DecidableEq

/-- The root of one parseable surefire report: the optional counting
attributes (absent attributes count as 0 via `attrib.get(a, 0)`) and all
`testcase` nodes below the root. -/
structure TestSuite where
  tests : Option Nat
  failures : Option Nat
  errors : Option Nat
  skipped : Option Nat
  cases : List TestCase
deriving DecidableEq

/-- One file of the report tree: either parseable XML or malformed
(raising `ET.ParseError` in the Python code). -/
inductive ReportFile
  | parsed (suite : TestSuite)
  | malformed
deriving DecidableEq

/-- The Test Statistics tuple accumulated by `surefire_stats`. -/
structure Stats where
  run : Nat
  failures : Nat
  errors : Nat
  skipped : Nat
deriving DecidableEq

def zeroStats : Stats := ⟨0, 0, 0, 0⟩

def addSuite (s : Stats) (r : TestSuite) : Stats :=
  ⟨s.run + r.tests.getD 0, s.failures + r.failures.getD 0,
    s.errors + r.errors.getD 0, s.skipped + r.skipped.getD 0⟩

/-- The body of the `surefire_stats` loop: accumulate a parseable file,
skip a malformed one (its `ET.ParseError` is swallowed). -/
def statStep (s : Stats) : ReportFile → Stats
  | .parsed r => addSuite s r
  | .malformed => s

/-- `surefire_stats`: sum the four counting attributes over every
parseable report file; a malformed file contributes nothing.  A missing
report directory shows up as the empty file list. -/
def surefire_stats (files : List ReportFile) : Stats :=
  files.foldl statStep zeroStats

/-- Python `classname.split('.')[-1]`. -/
def lastSegment (s : Str) : Str := (splitOnChar '.' s).getLastD []

/-- Python `name.split('{')[0].split('[')[0]`: cut at the first brace,
then at the first bracket.  `Char.ofNat 123` is the opening brace. -/
def stripParam (s : Str) : Str :=
  (s.takeWhile (fun c => !(c = Char.ofNat 123))).takeWhile (fun c => !(c = '['))

/-- The Test Identity `red_tests` records for a testcase node. -/
def testIdent (tc : TestCase) : Str × Str :=
  (lastSegment tc.classname, stripParam tc.name)

/-- Whether a testcase node is red (has a failure or error child). -/
def tcRed (tc : TestCase) : Bool := tc.hasFailure || tc.hasError

/-- The body of the inner `red_tests` loop: record the identity of a red
testcase, leave the accumulator alone otherwise. -/
def redStep (b : Finset (Str × Str)) (tc : TestCase) : Finset (Str × Str) :=
  if tcRed tc then insert (testIdent tc) b else b

/-- Fold of `red_tests` over the testcases of one parsed report. -/
def suiteRed (bad : Finset (Str × Str)) (r : TestSuite) : Finset (Str × Str) :=
  r.cases.foldl redStep bad

/-- The body of the outer `red_tests` loop: process a parseable file,
skip a malformed one. -/
def redFileStep (b : Finset (Str × Str)) : ReportFile → Finset (Str × Str)
  | .parsed r => suiteRed b r
  | .malformed => b

/-- `red_tests`: the set of Test Identities of failing/erroring testcases
across all parseable report files; malformed files are skipped. -/
def red_tests (files : List ReportFile) : Finset (Str × Str) :=
  files.foldl redFileStep ∅

/- ────────── stage runner (`run`) ────────── -/

/-- Environment of one stage execution: the exit status of the `mvn
install` subprocess, the exit status of the `mvn test` subprocess, and
the report tree the test step leaves behind. -/
structure StageEnv where
  installRc : Int
  testRc : Int
  reports : List ReportFile
deriving DecidableEq

/-- The two subprocess steps a stage may execute. -/
inductive StepTag
  | install
  | testStep
deriving DecidableEq

/-- The `run(stage)` function: always run the install step; when its exit
status is non-zero return it with an all-zero statistics tuple and do not
run the test step; otherwise run the test step and collect the surefire
statistics.  The second component records which steps were executed. -/
def runStage (env : StageEnv) : (Int × Stats) × List StepTag :=
  if env.installRc ≠ 0 then ((env.installRc, zeroStats), [StepTag.install])
  else ((env.testRc, surefire_stats env.reports), [StepTag.install, StepTag.testStep])

/- ────────── pipeline orchestrator (patch phase, lines 281-304) ────────── -/

/-- Environment of the patch phase of one pipeline run: whether `git apply`
succeeds on the negative patch and on the code patch, whether the code
patch file exists, and the two stage environments. -/
structure PipelineEnv where
  negApplyOk : Bool
  codeApplyOk : Bool
  codeExists : Bool
  negStage : StageEnv
  codeStage : StageEnv
deriving DecidableEq

/-- Observable events of the patch phase, in execution order. -/
inductive Ev
  | applyNeg
  | runCall (stage : Str)
  | stageStep (stage : Str) (step : StepTag)
  | applyCode
deriving DecidableEq

def negStageName : Str := "neg_patch".toList

def codeStageName : Str := "code_patch".toList

/-- Outcome of the patch phase: the two patch-applied flags and the two
stage results, as used by the summary block. -/
structure PipelineOut where
  neg_ok : Bool
  code_ok : Bool
  neg_rc : Int
  neg_st : Stats
  code_rc : Int
  code_st : Stats
deriving DecidableEq

/-- The patch phase of the orchestrator: apply the negative patch and
record its success as `neg_ok`; run the `neg_patch` stage; when `neg_ok`
holds and the code patch exists, apply the code patch and set `code_ok`
to `True` (the Python code discards `apply_patch`'s return value here);
finally run the `code_patch` stage.  `env.codeApplyOk` is deliberately
unread: the flag does not depend on it. -/
def patchPhase (env : PipelineEnv) : PipelineOut × List Ev :=
  let neg_ok := env.negApplyOk
  let negRun := runStage env.negStage
  let attemptCode := neg_ok && env.codeExists
  let code_ok := attemptCode
  let codeRun := runStage env.codeStage
  (⟨neg_ok, code_ok, negRun.1.1, negRun.1.2, codeRun.1.1, codeRun.1.2⟩,
    Ev.applyNeg ::
      (Ev.runCall negStageName :: negRun.2.map (Ev.stageStep negStageName)) ++
        (if attemptCode then [Ev.applyCode] else []) ++
          (Ev.runCall codeStageName :: codeRun.2.map (Ev.stageStep codeStageName)))

/-- The `patch applied → neg: … code: …` summary line (line 304). -/
def summaryFlags (out : PipelineOut) : Bool × Bool := (out.neg_ok, out.code_ok)

/- ────────── scorer (`5_measure_scores.py`, `pass_and_applied_rate`) ────────── -/

/-- One row of a results table, restricted to the three columns the scorer
reads. -/
structure ScoreRow where
  code_status : Str
  code_applied : Str
  neg_applied : Str
deriving DecidableEq

/-- Whether a row counts as a pass: `code_status` upper-cases to `PASS`
and both applied columns strip-and-upper-case to `TRUE`. -/
def rowPass (r : ScoreRow) : Bool :=
  upperStr r.code_status = "PASS".toList &&
    upperStr (pyStrip r.code_applied) = "TRUE".toList &&
      upperStr (pyStrip r.neg_applied) = "TRUE".toList

/-- The hard-coded expected totals for the classic datasets. -/
def classic_totals : List (Str × Nat) :=
  [("CF".toList, 10), ("DMB".toList, 3), ("EAK".toList, 20)]

/-- The hard-coded expected totals for the TDD datasets. -/
def tdd_totals : List (Str × Nat) :=
  [("CF".toList, 53), ("DMB".toList, 43), ("EAK".toList, 51)]

/-- Which lookup table applies to a file stem: the classic one when the
upper-cased stem contains `CLASSIC`, the TDD one otherwise. -/
def datasetTotals (stem : Str) : List (Str × Nat) :=
  if containsSub "CLASSIC".toList (upperStr stem) then classic_totals else tdd_totals

/-- The dataset-specific expected total for a stem: the value of the first
table key occurring as a substring of the upper-cased stem, if any. -/
def datasetTotal (stem : Str) : Option Nat :=
  ((datasetTotals stem).find? (fun kv => containsSub kv.1 (upperStr stem))).map (·.2)

/-- The denominator `pass_and_applied_rate` divides by: the loop over the
lookup table with `break`, leaving the row count untouched when no key
matches. -/
def lookupTotal (stem : Str) (rowCount : Nat) : Nat :=
  (datasetTotal stem).getD rowCount

/-- The `pass_and_applied_rate` computation on a well-formed table: `None`
for an empty table, otherwise the number of passing rows divided by the
looked-up total (exact rational arithmetic in place of Python floats). -/
def pass_and_applied_rate (stem : Str) (rows : List ScoreRow) : Option ℚ :=
  if rows.isEmpty then none
  else some ((rows.countP rowPass : ℚ) / (lookupTotal stem rows.length : ℚ))

/-- The scoring scenario table: 8 rows, 5 of which pass. -/
def scenarioRows : List ScoreRow :=
  List.replicate 5 ⟨"PASS".toList, "TRUE".toList, "TRUE".toList⟩ ++
    List.replicate 3 ⟨"FAIL".toList, "TRUE".toList, "TRUE".toList⟩

/- ────────── registry table rewrite (`write_skip`) ────────── -/

/-- One CSV row as the `csv.DictReader` yields it: an association list
from column name to cell value. -/
abbrev CsvRow := List (Str × Str)

/-- A CSV table: the header and the data rows. -/
structure CsvTable where
  fieldnames : List Str
  rows : List CsvRow
deriving DecidableEq

def ticketKey : Str := "ticket".toList

def skipKey : Str := "skipped_tests".toList

/-- The value of a field in a row: the first binding for the name, the
`DictWriter` rest value (empty string) when absent. -/
def getField (r : CsvRow) (f : Str) : Str := (r.lookup f).getD []

/-- Python `r[f] = v` on a dict: replace the binding when present,
append it otherwise. -/
def setField (r : CsvRow) (f v : Str) : CsvRow :=
  if r.any (fun kv => kv.1 == f) then r.map (fun kv => if kv.1 == f then (f, v) else kv)
  else r ++ [(f, v)]

/-- How `csv.DictWriter` serializes a row: one cell per field name, empty
for fields the row does not bind. -/
def renderRow (fieldnames : List Str) (r : CsvRow) : CsvRow :=
  fieldnames.map (fun f => (f, getField r f))

/-- The `for r in rows: if r["ticket"] == TICKET: … break / else: exit`
loop of `write_skip`: set `skipped_tests` on the first row whose ticket
matches, `none` (process abort) when no row matches. -/
def updateFirst (ticket v : Str) : List CsvRow → Option (List CsvRow)
  | [] => none
  | r :: rest =>
    if r.lookup ticketKey = some ticket then some (setField r skipKey v :: rest)
    else (updateFirst ticket v rest).map (r :: ·)

/-- The index of the first row whose `ticket` field matches, mirroring
the position at which the `write_skip` loop stops. -/
def firstMatchIdx (ticket : Str) : List CsvRow → Option Nat
  | [] => none
  | r :: rest =>
    if r.lookup ticketKey = some ticket then some 0
    else (firstMatchIdx ticket rest).map (· + 1)

/-- `write_skip`: read the whole table, append the `skipped_tests` column
to the header if missing, overwrite that field of the first row for the
ticket with the serialized skip set, abort when the ticket has no row,
and write every row back through the (possibly extended) header. -/
def write_skip (ticket : Str) (b : List (Str × Str)) (t : CsvTable) : Option CsvTable :=
  let fieldnames :=
    if t.fieldnames.any (fun f => f == skipKey) then t.fieldnames
    else t.fieldnames ++ [skipKey]
  match updateFirst ticket (writeSkipField b) t.rows with
  | none => none
  | some rows => some ⟨fieldnames, rows.map (renderRow fieldnames)⟩

/- ────────── helper lemmas: strings ────────── -/

theorem cons_headD_tail {α : Type} {r : List α} (d : α) (h : r ≠ []) :
    r.headD d :: r.tail = r := by
  cases r with
  | nil => exact absurd rfl h
  | cons a t => rfl

theorem splitOnChar_ne_nil (sep : Char) (s : Str) : splitOnChar sep s ≠ [] := by
  cases s with
  | nil => simp [splitOnChar]
  | cons c rest =>
    unfold splitOnChar
    by_cases h : c = sep <;> simp [h]

theorem splitOnChar_cons (sep c : Char) (rest : Str) :
    splitOnChar sep (c :: rest) =
      if c = sep then [] :: splitOnChar sep rest
      else (c :: (splitOnChar sep rest).headD []) :: (splitOnChar sep rest).tail := rfl

theorem splitOnChar_cons_sep (sep : Char) (rest : Str) :
    splitOnChar sep (sep :: rest) = [] :: splitOnChar sep rest := by
  rw [splitOnChar_cons, if_pos rfl]

theorem splitOnChar_cons_ne (sep c : Char) (rest : Str) (h : c ≠ sep) :
    splitOnChar sep (c :: rest) =
      (c :: (splitOnChar sep rest).headD []) :: (splitOnChar sep rest).tail := by
  rw [splitOnChar_cons, if_neg h]

theorem joinSep_splitOnChar (sep : Char) (s : Str) : joinSep sep (splitOnChar sep s) = s := by
  induction s with
  | nil => rfl
  | cons c rest ih =>
    by_cases h : c = sep
    · rw [h, splitOnChar_cons_sep]
      cases hr : splitOnChar sep rest with
      | nil => exact absurd hr (splitOnChar_ne_nil sep rest)
      | cons r rs =>
        rw [hr] at ih
        simpa [joinSep] using ih
    · rw [splitOnChar_cons_ne sep c rest h]
      cases hr : splitOnChar sep rest with
      | nil => exact absurd hr (splitOnChar_ne_nil sep rest)
      | cons r rs =>
        rw [hr] at ih
        cases rs with
        | nil => simpa [joinSep] using ih
        | cons r2 rs' =>
          simp only [joinSep, List.headD, List.tail] at ih ⊢
          rw [List.cons_append, ih]

theorem splitOnChar_sepFree (sep : Char) (s : Str) (h : sep ∉ s) : splitOnChar sep s = [s] := by
  induction s with
  | nil => rfl
  | cons c rest ih =>
    have hc : c ≠ sep := fun hc => h (hc ▸ List.mem_cons_self c rest)
    have hrest : sep ∉ rest := fun hr => h (List.mem_cons_of_mem c hr)
    rw [splitOnChar_cons_ne sep c rest hc, ih hrest]
    rfl

theorem splitOnChar_append_sep (sep : Char) (x r : Str) (h : sep ∉ x) :
    splitOnChar sep (x ++ sep :: r) = x :: splitOnChar sep r := by
  induction x with
  | nil => simpa using splitOnChar_cons_sep sep r
  | cons a x' ih =>
    have ha : a ≠ sep := fun hc => h (hc ▸ List.mem_cons_self a x')
    have hx : sep ∉ x' := fun hr => h (List.mem_cons_of_mem a hr)
    rw [List.cons_append, splitOnChar_cons_ne sep a _ ha, ih hx]
    rfl

theorem splitOnChar_joinSep (sep : Char) (xs : List Str) (hne : xs ≠ [])
    (h : ∀ x ∈ xs, sep ∉ x) : splitOnChar sep (joinSep sep xs) = xs := by
  induction xs with
  | nil => exact absurd rfl hne
  | cons x xs' ih =>
    cases xs' with
    | nil =>
      show splitOnChar sep x = [x]
      exact splitOnChar_sepFree sep x (h x (List.mem_cons_self x []))
    | cons y ys =>
      show splitOnChar sep (x ++ sep :: joinSep sep (y :: ys)) = x :: y :: ys
      rw [splitOnChar_append_sep sep x _ (h x (List.mem_cons_self x _)),
        ih (by simp) (fun z hz => h z (List.mem_cons_of_mem x hz))]

theorem mem_joinSep (sep : Char) (xs : List Str) (c : Char) (h : c ∈ joinSep sep xs) :
    c = sep ∨ ∃ x ∈ xs, c ∈ x := by
  induction xs with
  | nil => cases h
  | cons x xs' ih =>
    cases xs' with
    | nil =>
      exact Or.inr ⟨x, List.mem_cons_self x [], h⟩
    | cons y ys =>
      rw [show joinSep sep (x :: y :: ys) = x ++ sep :: joinSep sep (y :: ys) from rfl,
        List.mem_append, List.mem_cons] at h
      rcases h with hx | rfl | hrest
      · exact Or.inr ⟨x, List.mem_cons_self x _, hx⟩
      · exact Or.inl rfl
      · rcases ih hrest with hs | ⟨z, hz, hc⟩
        · exact Or.inl hs
        · exact Or.inr ⟨z, List.mem_cons_of_mem x hz, hc⟩

theorem replaceNl_eq_self (s : Str) (h : '\n' ∉ s) : replaceNl s = s := by
  unfold replaceNl
  induction s with
  | nil => rfl
  | cons c rest ih =>
    have hc : c ≠ '\n' := fun hc => h (hc ▸ List.mem_cons_self c rest)
    have hrest : '\n' ∉ rest := fun hr => h (List.mem_cons_of_mem c hr)
    simp [hc, ih hrest]

theorem dropWhile_headD (s : Str) (h : pyWhitespaceChar (s.headD '#') = false) :
    s.dropWhile pyWhitespaceChar = s := by
  cases s with
  | nil => rfl
  | cons a l =>
    have ha : pyWhitespaceChar a = false := h
    simp [List.dropWhile_cons, ha]

theorem pyStrip_eq_self (s : Str) (h1 : pyWhitespaceChar (s.headD '#') = false)
    (h2 : pyWhitespaceChar (s.getLastD '#') = false) : pyStrip s = s := by
  have hrev : pyWhitespaceChar (s.reverse.headD '#') = false := by
    rw [List.headD_eq_head?, List.head?_reverse, ← List.getLastD_eq_getLast?]
    exact h2
  unfold pyStrip
  rw [dropWhile_headD s h1, dropWhile_headD s.reverse hrev, List.reverse_reverse]

theorem headD_append_of_ne_nil (c x : Str) (d : Char) (h : c ≠ []) :
    (c ++ x).headD d = c.headD d := by
  cases c with
  | nil => exact absurd rfl h
  | cons a t => rfl

theorem getLastD_serializeId (p : Str × Str) (d : Char) :
    (serializeId p).getLastD d = p.2.getLastD '#' := by
  unfold serializeId
  rw [List.getLastD_eq_getLast?, List.getLast?_append]
  cases hm : p.2.getLast? with
  | none =>
    have : p.2 = [] := List.getLast?_eq_none_iff.mp hm
    simp [this]
  | some a =>
    have h2 : ('#' :: p.2).getLast? = some a := by
      rw [List.getLast?_cons, hm]
      rfl
    rw [h2]
    rw [List.getLastD_eq_getLast?, hm]
    rfl

theorem splitHash1_serializeId (p : Str × Str) (h : '#' ∉ p.1) :
    splitHash1 (serializeId p) = p := by
  unfold splitHash1 serializeId
  rw [splitOnChar_append_sep '#' p.1 p.2 h]
  simp [joinSep_splitOnChar]

theorem wellFormedId_unpack (p : Str × Str) (h : wellFormedId p = true) :
    p.1 ≠ [] ∧ '#' ∉ p.1 ∧ (∀ c ∈ serializeId p, c ≠ ',' ∧ c ≠ '\n') ∧
      pyWhitespaceChar ((serializeId p).headD '#') = false ∧
        pyWhitespaceChar ((serializeId p).getLastD '#') = false := by
  simp only [wellFormedId, Bool.and_eq_true, Bool.not_eq_true'] at h
  obtain ⟨⟨⟨⟨⟨hne, hhash⟩, hc1⟩, hc2⟩, hh⟩, hl⟩ := h
  have hne' : p.1 ≠ [] := by simpa [List.isEmpty_iff] using hne
  have hhash' : '#' ∉ p.1 := by simpa using hhash
  have hc1' : ∀ c ∈ p.1, c ≠ ',' ∧ c ≠ '\n' := by
    intro c hc
    have := List.all_eq_true.mp hc1 c hc
    simpa using this
  have hc2' : ∀ c ∈ p.2, c ≠ ',' ∧ c ≠ '\n' := by
    intro c hc
    have := List.all_eq_true.mp hc2 c hc
    simpa using this
  refine ⟨hne', hhash', ?_, ?_, ?_⟩
  · intro c hc
    rw [show serializeId p = p.1 ++ '#' :: p.2 from rfl, List.mem_append, List.mem_cons] at hc
    rcases hc with hc | rfl | hc
    · exact hc1' c hc
    · exact ⟨by decide, by decide⟩
    · exact hc2' c hc
  · rw [show serializeId p = p.1 ++ '#' :: p.2 from rfl,
      headD_append_of_ne_nil p.1 _ '#' hne']
    exact hh
  · rw [getLastD_serializeId]
    exact hl

theorem serializeId_fragment_facts (p : Str × Str) (h : wellFormedId p = true) :
    pyStrip (serializeId p) = serializeId p ∧ (serializeId p).isEmpty = false ∧
      startsWithHash (serializeId p) = false ∧ '#' ∈ serializeId p := by
  obtain ⟨hne, hhash, _, hh, hl⟩ := wellFormedId_unpack p h
  refine ⟨pyStrip_eq_self _ hh hl, ?_, ?_, by simp [serializeId]⟩
  · cases hc : p.1 with
    | nil => exact absurd hc hne
    | cons a t => simp [serializeId, hc]
  · cases hc : p.1 with
    | nil => exact absurd hc hne
    | cons a t =>
      have ha : a ≠ '#' := fun he => hhash (hc ▸ he ▸ List.mem_cons_self a t)
      simp [serializeId, hc, startsWithHash, ha]

theorem parseFragment_serializeId (p : Str × Str) (h : wellFormedId p = true) :
    parseFragment (serializeId p) = some p := by
  obtain ⟨hstrip, hempty, hstart, hmem⟩ := serializeId_fragment_facts p h
  have hhash : '#' ∉ p.1 := (wellFormedId_unpack p h).2.1
  simp [parseFragment, hstrip, hempty, hstart, hmem, splitHash1_serializeId p hhash]

theorem parseFragment_malformed (frag : Str)
    (h : startsWithHash (pyStrip frag) = true ∨ (pyStrip frag).contains '#' = false) :
    parseFragment frag = none := by
  unfold parseFragment
  rcases h with h | h
  · simp [h]
  · have h' : '#' ∉ pyStrip frag := by simpa using h
    simp [h, h']

theorem filterMap_id_of_some {α : Type} (f : α → Option α) (l : List α)
    (h : ∀ x ∈ l, f x = some x) : l.filterMap f = l := by
  induction l with
  | nil => rfl
  | cons a t ih =>
    rw [List.filterMap_cons, h a (List.mem_cons_self a t),
      ih (fun x hx => h x (List.mem_cons_of_mem a hx))]

theorem loadSkipField_writeSkipField (l : List (Str × Str))
    (h : ∀ p ∈ l, wellFormedId p = true) :
    loadSkipField (writeSkipField l) = sortedPairs l := by
  have hperm : (sortedPairs l).Perm l := List.mergeSort_perm l pairLe
  have h' : ∀ p ∈ sortedPairs l, wellFormedId p = true :=
    fun p hp => h p (hperm.mem_iff.mp hp)
  cases hsl : sortedPairs l with
  | nil =>
    unfold loadSkipField writeSkipField
    rw [hsl]
    rfl
  | cons p ps =>
    have hfrags_ne : (sortedPairs l).map serializeId ≠ [] := by
      rw [hsl]
      simp
    have hclean : ∀ x ∈ (sortedPairs l).map serializeId, ∀ c ∈ x, c ≠ ',' ∧ c ≠ '\n' := by
      intro x hx c hc
      rcases List.mem_map.mp hx with ⟨q, hq, rfl⟩
      exact (wellFormedId_unpack q (h' q hq)).2.2.1 c hc
    have hnl : '\n' ∉ joinSep ',' ((sortedPairs l).map serializeId) := by
      intro hmem
      rcases mem_joinSep ',' _ _ hmem with hc | ⟨x, hx, hcx⟩
      · exact absurd hc (by decide)
      · exact (hclean x hx '\n' hcx).2 rfl
    have hcomma : ∀ x ∈ (sortedPairs l).map serializeId, ',' ∉ x := by
      intro x hx hmem
      exact (hclean x hx ',' hmem).1 rfl
    unfold loadSkipField writeSkipField
    rw [replaceNl_eq_self _ hnl, splitOnChar_joinSep ',' _ hfrags_ne hcomma,
      List.filterMap_map, hsl]
    have h'' : ∀ q ∈ p :: ps, wellFormedId q = true := hsl ▸ h'
    simp only [Function.comp_def]
    exact filterMap_id_of_some _ _ (fun q hq => parseFragment_serializeId q (h'' q hq))

theorem strLe_trans (a b c : Str) (hab : strLe a b = true) (hbc : strLe b c = true) :
    strLe a c = true := by
  induction a generalizing b c with
  | nil => cases c <;> rfl
  | cons x as ih =>
    cases b with
    | nil => exact absurd hab (by simp [strLe])
    | cons y bs =>
      cases c with
      | nil => exact absurd hbc (by simp [strLe])
      | cons z cs =>
        by_cases hxy : x = y <;> by_cases hyz : y = z
        · subst hxy
          subst hyz
          simp only [strLe, if_pos rfl] at hab hbc ⊢
          exact ih bs cs hab hbc
        · subst hxy
          simp only [strLe, if_pos rfl, if_neg hyz] at hbc ⊢
          exact hbc
        · subst hyz
          simp only [strLe, if_neg hxy] at hab ⊢
          exact hab
        · have hlt1 : x < y := by simpa [strLe, hxy] using hab
          have hlt2 : y < z := by simpa [strLe, hyz] using hbc
          have hxz : x ≠ z := ne_of_lt (lt_trans hlt1 hlt2)
          simp [strLe, hxz, lt_trans hlt1 hlt2]

theorem strLe_total (a b : Str) : (strLe a b || strLe b a) = true := by
  induction a generalizing b with
  | nil => simp [strLe]
  | cons x as ih =>
    cases b with
    | nil => simp [strLe]
    | cons y bs =>
      by_cases hxy : x = y
      · subst hxy
        simpa [strLe] using ih bs
      · rcases lt_or_gt_of_ne hxy with hlt | hgt
        · simp [strLe, hxy, hlt]
        · simp [strLe, hxy, Ne.symm hxy, hgt, not_lt_of_gt hgt]

theorem strLe_antisymm (a b : Str) (hab : strLe a b = true) (hba : strLe b a = true) :
    a = b := by
  induction a generalizing b with
  | nil =>
    cases b with
    | nil => rfl
    | cons y bs => exact absurd hba (by simp [strLe])
  | cons x as ih =>
    cases b with
    | nil => exact absurd hab (by simp [strLe])
    | cons y bs =>
      by_cases hxy : x = y
      · subst hxy
        simp only [strLe, if_pos rfl] at hab hba
        rw [ih bs hab hba]
      · have hlt1 : x < y := by simpa [strLe, hxy] using hab
        have hlt2 : y < x := by simpa [strLe, Ne.symm hxy] using hba
        exact absurd hlt2 (not_lt_of_gt hlt1)


theorem dtestPats_writeSkipField (l : List (Str × Str))
    (h : ∀ p ∈ l, wellFormedId p = true) :
    dtestPats (writeSkipField l) = (sortedPairs l).map serializeId := by
  have hperm : (sortedPairs l).Perm l := List.mergeSort_perm l pairLe
  have h' : ∀ p ∈ sortedPairs l, wellFormedId p = true :=
    fun p hp => h p (hperm.mem_iff.mp hp)
  cases hsl : sortedPairs l with
  | nil =>
    unfold dtestPats writeSkipField
    rw [hsl]
    rfl
  | cons p ps =>
    have hfrags_ne : (sortedPairs l).map serializeId ≠ [] := by
      rw [hsl]
      simp
    have hclean : ∀ x ∈ (sortedPairs l).map serializeId, ∀ c ∈ x, c ≠ ',' ∧ c ≠ '\n' := by
      intro x hx c hc
      rcases List.mem_map.mp hx with ⟨q, hq, rfl⟩
      exact (wellFormedId_unpack q (h' q hq)).2.2.1 c hc
    have hnl : '\n' ∉ joinSep ',' ((sortedPairs l).map serializeId) := by
      intro hmem
      rcases mem_joinSep ',' _ _ hmem with hc | ⟨x, hx, hcx⟩
      · exact absurd hc (by decide)
      · exact (hclean x hx '\n' hcx).2 rfl
    have hcomma : ∀ x ∈ (sortedPairs l).map serializeId, ',' ∉ x := by
      intro x hx hmem
      exact (hclean x hx ',' hmem).1 rfl
    unfold dtestPats writeSkipField
    rw [replaceNl_eq_self _ hnl, splitOnChar_joinSep ',' _ hfrags_ne hcomma, List.map_map]
    have hstrip : ∀ q ∈ sortedPairs l, (pyStrip ∘ serializeId) q = serializeId q := by
      intro q hq
      exact (serializeId_fragment_facts q (h' q hq)).1
    rw [List.map_congr_left hstrip]
    have hf1 : ∀ x ∈ (sortedPairs l).map serializeId, (!x.isEmpty) = true := by
      intro x hx
      rcases List.mem_map.mp hx with ⟨q, hq, rfl⟩
      simp [(serializeId_fragment_facts q (h' q hq)).2.1]
    have hf2 : ∀ x ∈ (sortedPairs l).map serializeId,
        (x.contains '#' && !startsWithHash x) = true := by
      intro x hx
      rcases List.mem_map.mp hx with ⟨q, hq, rfl⟩
      obtain ⟨-, -, hstart, hmem⟩ := serializeId_fragment_facts q (h' q hq)
      simp [hstart, hmem]
    rw [List.filter_eq_self.mpr hf1, List.filter_eq_self.mpr hf2, hsl]

/- ────────── helper lemmas: report parser ────────── -/

theorem surefire_foldl_parsed (s : Stats) (suites : List TestSuite) :
    List.foldl statStep s (suites.map ReportFile.parsed) =
      ⟨s.run + (suites.map (fun r => r.tests.getD 0)).sum,
        s.failures + (suites.map (fun r => r.failures.getD 0)).sum,
        s.errors + (suites.map (fun r => r.errors.getD 0)).sum,
        s.skipped + (suites.map (fun r => r.skipped.getD 0)).sum⟩ := by
  induction suites generalizing s with
  | nil => simp
  | cons r rs ih =>
    rw [List.map_cons, List.foldl_cons, ih]
    simp [statStep, addSuite, Nat.add_assoc]

theorem mem_caseFold (b : Finset (Str × Str)) (l : List TestCase) (q : Str × Str) :
    q ∈ l.foldl redStep b ↔ q ∈ b ∨ ∃ tc ∈ l, tcRed tc = true ∧ q = testIdent tc := by
  induction l generalizing b with
  | nil => simp
  | cons tc rest ih =>
    rw [List.foldl_cons, ih]
    unfold redStep
    by_cases h : tcRed tc
    · simp only [h, if_pos, Finset.mem_insert, List.mem_cons]
      aesop
    · simp only [h, if_neg, List.mem_cons, Bool.false_eq_true, not_false_iff]
      aesop

theorem mem_fileFold (b : Finset (Str × Str)) (files : List ReportFile) (q : Str × Str) :
    q ∈ files.foldl redFileStep b ↔
      q ∈ b ∨ ∃ r : TestSuite, ReportFile.parsed r ∈ files ∧
        ∃ tc ∈ r.cases, tcRed tc = true ∧ q = testIdent tc := by
  induction files generalizing b with
  | nil => simp
  | cons f rest ih =>
    rw [List.foldl_cons, ih]
    cases f with
    | malformed =>
      simp only [redFileStep, List.mem_cons]
      aesop
    | parsed suite =>
      simp only [redFileStep, suiteRed, mem_caseFold, List.mem_cons]
      aesop

/- ────────── helper lemmas: registry table ────────── -/

theorem lookup_cons (kv : Str × Str) (rest : CsvRow) (g : Str) :
    (kv :: rest).lookup g = if g = kv.1 then some kv.2 else rest.lookup g := by
  rcases kv with ⟨k, b⟩
  rw [List.lookup]
  cases hbeq : g == k with
  | true => simp [show g = k by simpa using hbeq]
  | false => simp [show ¬ g = k by simpa using hbeq]

theorem lookup_eq_none_of_keys (r : CsvRow) (f : Str) (h : ∀ kv ∈ r, kv.1 ≠ f) :
    r.lookup f = none := by
  induction r with
  | nil => rfl
  | cons kv rest ih =>
    rw [lookup_cons, if_neg (fun he => h kv (List.mem_cons_self kv rest) he.symm)]
    exact ih (fun kv' hkv' => h kv' (List.mem_cons_of_mem kv hkv'))

theorem lookup_isSome_of_mem_key (r : CsvRow) (f : Str) (kv : Str × Str)
    (hkv : kv ∈ r) (hk : kv.1 = f) : ∃ w, r.lookup f = some w := by
  induction r with
  | nil => cases hkv
  | cons kv' rest ih =>
    rw [lookup_cons]
    by_cases hf : f = kv'.1
    · exact ⟨kv'.2, if_pos hf ▸ rfl⟩
    · rw [if_neg hf]
      rcases List.mem_cons.mp hkv with rfl | hmem
      · exact absurd hk.symm hf
      · exact ih hmem

theorem lookup_renderRow (fieldnames : List Str) (r : CsvRow) (f : Str) :
    (renderRow fieldnames r).lookup f =
      if f ∈ fieldnames then some (getField r f) else none := by
  induction fieldnames with
  | nil => simp [renderRow]
  | cons g gs ih =>
    rw [renderRow, List.map_cons,
      show List.map (fun fn => (fn, getField r fn)) gs = renderRow gs r from rfl,
      lookup_cons]
    by_cases hfg : f = g
    · subst hfg
      simp
    · rw [if_neg hfg, ih]
      simp [hfg]

theorem getField_renderRow (fieldnames : List Str) (r : CsvRow) (f : Str) :
    getField (renderRow fieldnames r) f = if f ∈ fieldnames then getField r f else [] := by
  unfold getField
  rw [lookup_renderRow]
  by_cases hf : f ∈ fieldnames <;> simp [hf, getField]

theorem lookup_map_setField_self (r : CsvRow) (f v : Str) :
    (r.map (fun kv => if kv.1 == f then (f, v) else kv)).lookup f =
      (r.lookup f).map (fun _ => v) := by
  induction r with
  | nil => rfl
  | cons kv rest ih =>
    rw [List.map_cons]
    by_cases hk : kv.1 = f
    · rw [if_pos (show (kv.1 == f) = true by simp [hk])]
      rw [lookup_cons ((f, v)) _ f, if_pos rfl]
      rw [lookup_cons kv rest f, if_pos hk.symm]
      rfl
    · rw [if_neg (show ¬ (kv.1 == f) = true by simp [hk])]
      rw [lookup_cons kv _ f, if_neg (fun he => hk he.symm), ih]
      rw [lookup_cons kv rest f, if_neg (fun he => hk he.symm)]

theorem lookup_map_setField_ne (r : CsvRow) (f v g : Str) (hg : g ≠ f) :
    (r.map (fun kv => if kv.1 == f then (f, v) else kv)).lookup g = r.lookup g := by
  induction r with
  | nil => rfl
  | cons kv rest ih =>
    rw [List.map_cons]
    by_cases hk : kv.1 = f
    · rw [if_pos (show (kv.1 == f) = true by simp [hk])]
      rw [lookup_cons ((f, v)) _ g, if_neg hg]
      rw [lookup_cons kv rest g, if_neg (fun he : g = kv.1 => hg (he.trans hk)), ih]
    · rw [if_neg (show ¬ (kv.1 == f) = true by simp [hk])]
      rw [lookup_cons kv _ g, lookup_cons kv rest g, ih]

theorem lookup_append_single_self (r : CsvRow) (f v : Str) (h : r.lookup f = none) :
    (r ++ [(f, v)]).lookup f = some v := by
  induction r with
  | nil => simp [lookup_cons]
  | cons kv rest ih =>
    rw [lookup_cons] at h
    rw [List.cons_append, lookup_cons]
    by_cases hf : f = kv.1
    · rw [if_pos hf] at h
      cases h
    · rw [if_neg hf] at h
      rw [if_neg hf]
      exact ih h

theorem lookup_append_single_ne (r : CsvRow) (f v g : Str) (hg : g ≠ f) :
    (r ++ [(f, v)]).lookup g = r.lookup g := by
  induction r with
  | nil => simp [lookup_cons, hg]
  | cons kv rest ih =>
    rw [List.cons_append, lookup_cons, lookup_cons]
    by_cases hgk : g = kv.1
    · rw [if_pos hgk, if_pos hgk]
    · rw [if_neg hgk, if_neg hgk, ih]

theorem any_eq_false_lookup_none (r : CsvRow) (f : Str)
    (h : r.any (fun kv => kv.1 == f) = false) : r.lookup f = none := by
  apply lookup_eq_none_of_keys
  intro kv hkv hk
  have htrue : r.any (fun kv => kv.1 == f) = true :=
    List.any_eq_true.mpr ⟨kv, hkv, by simp [hk]⟩
  rw [htrue] at h
  cases h

theorem getField_setField_self (r : CsvRow) (f v : Str) :
    getField (setField r f v) f = v := by
  unfold getField setField
  cases hany : r.any (fun kv => kv.1 == f) with
  | false =>
    rw [if_neg (by simp [hany]),
      lookup_append_single_self r f v (any_eq_false_lookup_none r f hany)]
    rfl
  | true =>
    rw [if_pos rfl, lookup_map_setField_self]
    rcases List.any_eq_true.mp hany with ⟨kv, hkv, hk⟩
    obtain ⟨w, hw⟩ := lookup_isSome_of_mem_key r f kv hkv (by simpa using hk)
    rw [hw]
    rfl

theorem getField_setField_ne (r : CsvRow) (f v g : Str) (hg : g ≠ f) :
    getField (setField r f v) g = getField r g := by
  unfold getField setField
  cases hany : r.any (fun kv => kv.1 == f) with
  | false => rw [if_neg (by simp [hany]), lookup_append_single_ne r f v g hg]
  | true => rw [if_pos rfl, lookup_map_setField_ne r f v g hg]

theorem firstMatchIdx_lt (ticket : Str) (rows : List CsvRow) (i : Nat)
    (h : firstMatchIdx ticket rows = some i) : i < rows.length := by
  induction rows generalizing i with
  | nil => cases h
  | cons r rest ih =>
    unfold firstMatchIdx at h
    by_cases hm : r.lookup ticketKey = some ticket
    · rw [if_pos hm] at h
      cases h
      simp
    · rw [if_neg hm] at h
      cases hfm : firstMatchIdx ticket rest with
      | none => rw [hfm] at h; cases h
      | some i' =>
        rw [hfm] at h
        cases h
        simpa using ih i' hfm

theorem updateFirst_spec (ticket v : Str) (rows : List CsvRow) (i : Nat)
    (hi : firstMatchIdx ticket rows = some i) :
    ∃ rows', updateFirst ticket v rows = some rows' ∧
      rows'.length = rows.length ∧
      (∀ j, j ≠ i → rows'.getD j [] = rows.getD j []) ∧
      rows'.getD i [] = setField (rows.getD i []) skipKey v := by
  induction rows generalizing i with
  | nil => cases hi
  | cons r rest ih =>
    unfold firstMatchIdx at hi
    unfold updateFirst
    by_cases hm : r.lookup ticketKey = some ticket
    · rw [if_pos hm] at hi ⊢
      cases hi
      refine ⟨setField r skipKey v :: rest, rfl, by simp, ?_, by simp⟩
      intro j hj
      cases j with
      | zero => exact absurd rfl hj
      | succ j' => simp [List.getD_cons_succ]
    · rw [if_neg hm] at hi ⊢
      cases hfm : firstMatchIdx ticket rest with
      | none => rw [hfm] at hi; cases hi
      | some i' =>
        rw [hfm] at hi
        cases hi
        obtain ⟨rest', h1, h2, h3, h4⟩ := ih i' hfm
        refine ⟨r :: rest', by rw [h1]; rfl, by simp [h2], ?_, by
          rw [List.getD_cons_succ, List.getD_cons_succ]; exact h4⟩
        intro j hj
        cases j with
        | zero => simp
        | succ j' =>
          have hj' : j' ≠ i' := fun he => hj (by rw [he])
          rw [List.getD_cons_succ, List.getD_cons_succ]
          exact h3 j' hj'

theorem getD_map_renderRow (fns : List Str) (rows : List CsvRow) (j : Nat)
    (hj : j < rows.length) :
    (rows.map (renderRow fns)).getD j [] = renderRow fns (rows.getD j []) := by
  rw [List.getD_eq_getElem?_getD, List.getElem?_map, List.getElem?_eq_getElem hj,
    List.getD_eq_getElem rows [] hj]
  rfl

theorem getField_nil (f : Str) : getField [] f = [] := rfl

/- ────────── claim theorems ────────── -/

/-- C4: a malformed report file anywhere in the report tree is skipped: it
contributes nothing to the aggregated statistics and nothing to the
red-test set, and the remaining files are still processed. -/
theorem malformed_reports_skipped (pre suf : List ReportFile) :
    surefire_stats (pre ++ ReportFile.malformed :: suf) = surefire_stats (pre ++ suf) ∧
      red_tests (pre ++ ReportFile.malformed :: suf) = red_tests (pre ++ suf) := by
  unfold surefire_stats red_tests
  constructor <;> rw [List.foldl_append, List.foldl_append, List.foldl_cons] <;> rfl

/-- C9: `surefire_stats` returns the elementwise sums of the per-file
counts over a tree of parseable reports, and an absent report directory
(the empty file list) yields all-zero statistics and an empty red-test
set without an error. -/
theorem surefire_stats_sums (suites : List TestSuite) :
    surefire_stats (suites.map ReportFile.parsed) =
      ⟨(suites.map (fun r => r.tests.getD 0)).sum,
        (suites.map (fun r => r.failures.getD 0)).sum,
        (suites.map (fun r => r.errors.getD 0)).sum,
        (suites.map (fun r => r.skipped.getD 0)).sum⟩ ∧
      surefire_stats [] = zeroStats ∧ red_tests [] = ∅ := by
  refine ⟨?_, rfl, rfl⟩
  unfold surefire_stats
  rw [surefire_foldl_parsed]
  simp [zeroStats]

/-- C8: a Test Identity is in the red-test set exactly when some failing
or erroring testcase of some parseable report has it as (last dotted
segment of its classname, parameterization-suffix-stripped name); five
parameterized invocations of one method collapse to a single identity. -/
theorem red_tests_identities :
    (∀ (files : List ReportFile) (q : Str × Str),
        q ∈ red_tests files ↔
          ∃ r : TestSuite, ReportFile.parsed r ∈ files ∧
            ∃ tc ∈ r.cases, tcRed tc = true ∧ q = testIdent tc) ∧
      red_tests [ReportFile.parsed ⟨none, none, none, none,
          [⟨"com.example.FooTest".toList, "bar[0]".toList, true, false⟩,
            ⟨"com.example.FooTest".toList, "bar[1]".toList, true, false⟩,
            ⟨"com.example.FooTest".toList, "bar[2]".toList, false, true⟩,
            ⟨"com.example.FooTest".toList, "bar[3]".toList, true, true⟩,
            ⟨"com.example.FooTest".toList, "bar[4]".toList, true, false⟩]⟩] =
        {("FooTest".toList, "bar".toList)} := by
  constructor
  · intro files q
    unfold red_tests
    rw [mem_fileFold]
    simp
  · decide

/-- C6: when the install step of a stage exits non-zero, the stage
returns that status with an all-zero statistics tuple, its test step is
not attempted, and the orchestrator still invokes every later stage (both
`neg_patch` and `code_patch` calls happen in every run). -/
theorem install_failure_aborts_stage :
    (∀ env : StageEnv, env.installRc ≠ 0 →
        runStage env = ((env.installRc, zeroStats), [StepTag.install]) ∧
          StepTag.testStep ∉ (runStage env).2) ∧
      ∀ penv : PipelineEnv,
        Ev.runCall negStageName ∈ (patchPhase penv).2 ∧
          Ev.runCall codeStageName ∈ (patchPhase penv).2 := by
  constructor
  · intro env h
    have he : runStage env = ((env.installRc, zeroStats), [StepTag.install]) := by
      unfold runStage
      rw [if_pos h]
    refine ⟨he, ?_⟩
    rw [he]
    simp
  · intro penv
    constructor <;> simp [patchPhase]

theorem install_failure_aborts_stage_witness :
    ((⟨1, 0, []⟩ : StageEnv).installRc ≠ 0) ∧
      runStage ⟨1, 0, []⟩ = ((1, zeroStats), [StepTag.install]) := by
  have h : (⟨1, 0, []⟩ : StageEnv).installRc ≠ 0 := by decide
  exact ⟨h, (install_failure_aborts_stage.1 ⟨1, 0, []⟩ h).1⟩

/-- C2: when the negative patch fails to apply, the `neg_patch` stage is
still run, the code patch is never applied even if supplied and existing,
and the summary reports both patch-applied flags as `False`. -/
theorem neg_patch_failure_flow (env : PipelineEnv) (h : env.negApplyOk = false) :
    Ev.runCall negStageName ∈ (patchPhase env).2 ∧
      Ev.applyCode ∉ (patchPhase env).2 ∧
        (patchPhase env).1.neg_ok = false ∧
          (patchPhase env).1.code_ok = false ∧
            summaryFlags (patchPhase env).1 = (false, false) := by
  refine ⟨?_, ?_, ?_, ?_, ?_⟩ <;> simp [patchPhase, summaryFlags, h]

theorem neg_patch_failure_flow_witness :
    ((⟨false, true, true, ⟨0, 0, []⟩, ⟨0, 0, []⟩⟩ : PipelineEnv).negApplyOk = false) ∧
      Ev.applyCode ∉ (patchPhase ⟨false, true, true, ⟨0, 0, []⟩, ⟨0, 0, []⟩⟩).2 :=
  ⟨rfl, (neg_patch_failure_flow _ rfl).2.1⟩

/-- C1 counterexample: the claim "the code patch-applied flag is true iff
applying the code patch succeeded" is false: in a run where the negative
patch applies, a code patch exists, and applying the code patch fails
(`codeApplyOk = false`), the flag is still `True`. -/
theorem code_flag_ignores_apply_cex :
    ¬ (∀ env : PipelineEnv, env.negApplyOk = true → env.codeExists = true →
        ((patchPhase env).1.code_ok = true ↔ env.codeApplyOk = true)) := by
  intro hclaim
  exact absurd ((hclaim ⟨true, false, true, ⟨0, 0, []⟩, ⟨0, 0, []⟩⟩ rfl rfl).mp rfl)
    (by decide)

/-- C1 (amended): the code patch-applied flag is true iff the negative
patch applied cleanly and the code patch exists; the apply is attempted in
exactly that case, but the flag ignores the apply's exit status (flipping
`codeApplyOk` never changes it). -/
theorem code_flag_iff_attempted (env : PipelineEnv) :
    (patchPhase env).1.code_ok = (env.negApplyOk && env.codeExists) ∧
      (Ev.applyCode ∈ (patchPhase env).2 ↔ (env.negApplyOk && env.codeExists) = true) ∧
        (patchPhase env).1.code_ok =
          (patchPhase
              ⟨env.negApplyOk, !env.codeApplyOk, env.codeExists,
                env.negStage, env.codeStage⟩).1.code_ok := by
  refine ⟨rfl, ?_, rfl⟩
  by_cases h : env.negApplyOk && env.codeExists <;> simp [patchPhase, h]

/-- C3: a row counts as a pass iff its `code_status` is PASS and both
applied flags are TRUE; the denominator is the dataset-specific expected
total whenever a lookup key matches the filename (independently of the
row count); and the 8-row scenario with 5 passes and expected total 10
scores 50%, not 5/8. -/
theorem scorer_pass_rate :
    (∀ r : ScoreRow, rowPass r = true ↔
        (upperStr r.code_status = "PASS".toList ∧
          upperStr (pyStrip r.code_applied) = "TRUE".toList ∧
            upperStr (pyStrip r.neg_applied) = "TRUE".toList)) ∧
      (∀ stem n m t, datasetTotal stem = some t →
          lookupTotal stem n = t ∧ lookupTotal stem m = t) ∧
      (∀ stem rows, rows ≠ [] →
          pass_and_applied_rate stem rows =
            some ((rows.countP rowPass : ℚ) / (lookupTotal stem rows.length : ℚ))) ∧
      pass_and_applied_rate "test_results-CF_CLASSIC".toList scenarioRows = some (1 / 2) ∧
        (1 / 2 : ℚ) ≠ 5 / 8 := by
  have hrate : ∀ (stem : Str) (rows : List ScoreRow), rows ≠ [] →
      pass_and_applied_rate stem rows =
        some ((rows.countP rowPass : ℚ) / (lookupTotal stem rows.length : ℚ)) := by
    intro stem rows h
    simp [pass_and_applied_rate, h]
  refine ⟨?_, ?_, hrate, ?_, by norm_num⟩
  · intro r
    simp [rowPass, and_assoc]
  · intro stem n m t h
    constructor <;> simp [lookupTotal, h]
  · have hc : scenarioRows.countP rowPass = 5 := by decide
    have hl : scenarioRows.length = 8 := by decide
    have ht : lookupTotal "test_results-CF_CLASSIC".toList 8 = 10 := by decide
    rw [hrate _ _ (by decide), hc, hl, ht]
    norm_num

theorem scorer_pass_rate_witness :
    datasetTotal "EAK_tdd".toList = some 51 ∧
      lookupTotal "EAK_tdd".toList 3 = 51 ∧
      pass_and_applied_rate "zzz".toList [⟨"PASS".toList, "TRUE".toList, "TRUE".toList⟩] =
        some ((([⟨"PASS".toList, "TRUE".toList, "TRUE".toList⟩] : List ScoreRow).countP rowPass : ℚ) /
          ((lookupTotal "zzz".toList 1 : Nat) : ℚ)) := by
  refine ⟨by decide, ?_, ?_⟩
  · exact (scorer_pass_rate.2.1 _ 3 0 51 (by decide)).1
  · exact scorer_pass_rate.2.2.1 _ _ (by simp)

/-- C5: after persisting a set of well-formed Test Identities for a
ticket, loading the skip list reproduces exactly that set (membership in
the loaded list coincides with membership in the original), and any
fragment whose stripped form starts with `#` or lacks a `#` separator is
filtered out by the loader instead of raising an error. -/
theorem skip_list_roundtrip (l : List (Str × Str)) (h : ∀ p ∈ l, wellFormedId p = true) :
    (∀ q, q ∈ loadSkipField (writeSkipField l) ↔ q ∈ l) ∧
      ∀ frag, (startsWithHash (pyStrip frag) = true ∨ (pyStrip frag).contains '#' = false) →
        parseFragment frag = none := by
  refine ⟨?_, fun frag hf => parseFragment_malformed frag hf⟩
  intro q
  rw [loadSkipField_writeSkipField l h]
  exact (List.mergeSort_perm l pairLe).mem_iff

theorem skip_list_roundtrip_witness :
    (∀ p ∈ [(("A".toList : Str), ("x".toList : Str))], wellFormedId p = true) ∧
      (("A".toList, "x".toList) ∈
          loadSkipField (writeSkipField [(("A".toList : Str), ("x".toList : Str))]) ↔
        ("A".toList, "x".toList) ∈ [(("A".toList : Str), ("x".toList : Str))]) := by
  have h : ∀ p ∈ [(("A".toList : Str), ("x".toList : Str))], wellFormedId p = true := by
    decide
  exact ⟨h, (skip_list_roundtrip _ h).1 _⟩

/-- C7: `dtest` returns no filter exactly when the stored skip list has
no well-formed fragment; on the persisted form of a non-empty set of
well-formed identities it emits `-Dtest=` with `*` followed by one
`!Class#method` exclusion per identity in sorted order (each serialized
identity occurring exactly once), and as a pure function it is
deterministic. -/
theorem dtest_filter_spec (l : List (Str × Str)) (h : ∀ p ∈ l, wellFormedId p = true)
    (hnd : l.Nodup) :
    (∀ raw, dtest raw = none ↔ dtestPats raw = []) ∧
      (dtest (writeSkipField l) = none ↔ l = []) ∧
      (l ≠ [] → dtest (writeSkipField l) =
        some ("-Dtest=".toList ++
          joinSep ',' (['*'] :: ((l.map serializeId).mergeSort strLe).map (fun p => '!' :: p)))) ∧
      (((l.map serializeId).mergeSort strLe).Nodup ∧
        ∀ p ∈ l, serializeId p ∈ (l.map serializeId).mergeSort strLe) ∧
      (∀ raw, dtest raw = dtest raw) := by
  have hpats := dtestPats_writeSkipField l h
  have hnone : ∀ raw, dtest raw = none ↔ dtestPats raw = [] := by
    intro raw
    unfold dtest
    cases he : (dtestPats raw).isEmpty with
    | true =>
      have hn : dtestPats raw = [] := List.isEmpty_iff.mp he
      simp [he, hn]
    | false =>
      have hn : dtestPats raw ≠ [] := by
        intro hx
        rw [hx] at he
        cases he
      simp [he, hn]
  have hsorted_eq : ((sortedPairs l).map serializeId).mergeSort strLe =
      (l.map serializeId).mergeSort strLe := by
    have hperm : (((sortedPairs l).map serializeId).mergeSort strLe).Perm
        ((l.map serializeId).mergeSort strLe) :=
      ((List.mergeSort_perm _ strLe).trans
          ((List.mergeSort_perm l pairLe).map serializeId)).trans
        (List.mergeSort_perm (l.map serializeId) strLe).symm
    exact @List.eq_of_perm_of_sorted Str (fun a b => strLe a b = true) ⟨strLe_antisymm⟩ _ _
      hperm (List.sorted_mergeSort strLe_trans strLe_total _)
      (List.sorted_mergeSort strLe_trans strLe_total _)
  refine ⟨hnone, ?_, ?_, ?_, fun raw => rfl⟩
  · rw [hnone, hpats]
    constructor
    · intro hm
      have : sortedPairs l = [] := by
        cases hs : sortedPairs l with
        | nil => rfl
        | cons a t => rw [hs] at hm; cases hm
      have hlen : l.length = 0 := by
        rw [← @List.length_mergeSort (Str × Str) pairLe l]
        rw [show l.mergeSort pairLe = sortedPairs l from rfl, this]
        rfl
      exact List.length_eq_zero.mp hlen
    · intro hl
      subst hl
      have hnil : sortedPairs ([] : List (Str × Str)) = [] :=
        (List.mergeSort_perm _ pairLe).eq_nil
      rw [hnil]
      rfl
  · intro hne
    unfold dtest
    rw [hpats]
    have hne' : ((sortedPairs l).map serializeId).isEmpty = false := by
      rw [List.isEmpty_eq_false_iff_exists_mem]
      cases hs : sortedPairs l with
      | nil =>
        have hlen := @List.length_mergeSort (Str × Str) pairLe l
        rw [show l.mergeSort pairLe = sortedPairs l from rfl, hs] at hlen
        exact absurd (List.length_eq_zero.mp hlen.symm) hne
      | cons a t => exact ⟨serializeId a, by simp [hs]⟩
    simp only [hne', Bool.false_eq_true, if_false, hsorted_eq]
  · have hinj : ∀ x ∈ l, ∀ y ∈ l, serializeId x = serializeId y → x = y := by
      intro x hx y hy hxy
      have hx1 : '#' ∉ x.1 := (wellFormedId_unpack x (h x hx)).2.1
      have hy1 : '#' ∉ y.1 := (wellFormedId_unpack y (h y hy)).2.1
      have := splitHash1_serializeId x hx1
      rw [hxy, splitHash1_serializeId y hy1] at this
      exact this.symm
    have hnodup : (l.map serializeId).Nodup := hnd.map_on hinj
    refine ⟨(List.mergeSort_perm (l.map serializeId) strLe).nodup_iff.mpr hnodup, ?_⟩
    intro p hp
    exact (List.mergeSort_perm (l.map serializeId) strLe).mem_iff.mpr
      (List.mem_map_of_mem serializeId hp)

theorem dtest_filter_spec_witness :
    (∀ p ∈ [(("A".toList : Str), ("x".toList : Str))], wellFormedId p = true) ∧
      ([(("A".toList : Str), ("x".toList : Str))] : List (Str × Str)).Nodup ∧
      ((([(("A".toList : Str), ("x".toList : Str))] : List (Str × Str)) ≠ []) ∧
        dtest (writeSkipField [(("A".toList : Str), ("x".toList : Str))]) =
          some ("-Dtest=".toList ++
            joinSep ','
              (['*'] ::
                (([(("A".toList : Str), ("x".toList : Str))].map serializeId).mergeSort
                      strLe).map
                  (fun p => '!' :: p)))) := by
  have h : ∀ p ∈ [(("A".toList : Str), ("x".toList : Str))], wellFormedId p = true := by
    decide
  have hnd : ([(("A".toList : Str), ("x".toList : Str))] : List (Str × Str)).Nodup := by
    simp
  have hne : ([(("A".toList : Str), ("x".toList : Str))] : List (Str × Str)) ≠ [] := by
    simp
  exact ⟨h, hnd, hne, (dtest_filter_spec _ h hnd).2.2.1 hne⟩

/-- C10: rewriting the registry for a ticket changes only the
`skipped_tests` field of the first row whose ticket matches: the header
gains the `skipped_tests` column exactly when it was absent, the row
count is unchanged, every other row keeps the value of every field, the
matching row keeps every other field, and its `skipped_tests` field
becomes the serialized skip set. -/
theorem write_skip_frame (t : CsvTable) (ticket : Str) (b : List (Str × Str)) (i : Nat)
    (hi : firstMatchIdx ticket t.rows = some i)
    (hkeys : ∀ r ∈ t.rows, ∀ kv ∈ r, kv.1 ∈ t.fieldnames) :
    ∃ t', write_skip ticket b t = some t' ∧
      t'.fieldnames =
        (if skipKey ∈ t.fieldnames then t.fieldnames else t.fieldnames ++ [skipKey]) ∧
      t'.rows.length = t.rows.length ∧
      (∀ j, j ≠ i → ∀ f, getField (t'.rows.getD j []) f = getField (t.rows.getD j []) f) ∧
      (∀ f, f ≠ skipKey → getField (t'.rows.getD i []) f = getField (t.rows.getD i []) f) ∧
      getField (t'.rows.getD i []) skipKey = writeSkipField b := by
  obtain ⟨rows', h1, h2, h3, h4⟩ := updateFirst_spec ticket (writeSkipField b) t.rows i hi
  have hi_lt : i < t.rows.length := firstMatchIdx_lt ticket t.rows i hi
  have hfns_eq :
      (if t.fieldnames.any (fun f => f == skipKey) then t.fieldnames
        else t.fieldnames ++ [skipKey]) =
      (if skipKey ∈ t.fieldnames then t.fieldnames else t.fieldnames ++ [skipKey]) := by
    by_cases hm : skipKey ∈ t.fieldnames
    · rw [if_pos hm, if_pos (List.any_eq_true.mpr ⟨skipKey, hm, by simp⟩)]
    · have hany : t.fieldnames.any (fun f => f == skipKey) = false := by
        rw [List.any_eq_false]
        intro x hx hbe
        exact hm ((by simpa using hbe : x = skipKey) ▸ hx)
      rw [if_neg hm, if_neg (by rw [hany]; simp)]
  have hsub : ∀ f, f ∈ t.fieldnames →
      f ∈ (if skipKey ∈ t.fieldnames then t.fieldnames else t.fieldnames ++ [skipKey]) := by
    intro f hf
    by_cases hm : skipKey ∈ t.fieldnames
    · rw [if_pos hm]; exact hf
    · rw [if_neg hm]; exact List.mem_append.mpr (Or.inl hf)
  have hskip_mem :
      skipKey ∈ (if skipKey ∈ t.fieldnames then t.fieldnames else t.fieldnames ++ [skipKey]) := by
    by_cases hm : skipKey ∈ t.fieldnames
    · rw [if_pos hm]; exact hm
    · rw [if_neg hm]; exact List.mem_append.mpr (Or.inr (List.mem_cons_self skipKey []))
  have hgf_none : ∀ r ∈ t.rows, ∀ f,
      f ∉ (if skipKey ∈ t.fieldnames then t.fieldnames else t.fieldnames ++ [skipKey]) →
      getField r f = [] := by
    intro r hr f hf
    unfold getField
    rw [lookup_eq_none_of_keys r f (fun kv hkv he => hf (he ▸ hsub kv.1 (hkeys r hr kv hkv)))]
    rfl
  refine ⟨⟨(if skipKey ∈ t.fieldnames then t.fieldnames else t.fieldnames ++ [skipKey]),
      rows'.map (renderRow
        (if skipKey ∈ t.fieldnames then t.fieldnames else t.fieldnames ++ [skipKey]))⟩,
    ?_, rfl, by simpa using h2, ?_, ?_, ?_⟩
  · unfold write_skip
    rw [h1, hfns_eq]
  · intro j hj f
    by_cases hjl : j < t.rows.length
    · have hjl' : j < rows'.length := h2 ▸ hjl
      rw [getD_map_renderRow _ rows' j hjl', h3 j hj, getField_renderRow]
      have hrow_mem : t.rows.getD j [] ∈ t.rows := by
        rw [List.getD_eq_getElem t.rows [] hjl]
        exact List.getElem_mem hjl
      by_cases hf : f ∈ (if skipKey ∈ t.fieldnames then t.fieldnames
          else t.fieldnames ++ [skipKey])
      · rw [if_pos hf]
      · rw [if_neg hf, hgf_none _ hrow_mem f hf]
    · have hge : t.rows.length ≤ j := Nat.le_of_not_lt hjl
      rw [List.getD_eq_default _ _ (by simpa [h2] using hge),
        List.getD_eq_default _ _ hge]
  · intro f hf
    have hi_lt' : i < rows'.length := h2 ▸ hi_lt
    rw [getD_map_renderRow _ rows' i hi_lt', h4, getField_renderRow]
    have hrow_mem : t.rows.getD i [] ∈ t.rows := by
      rw [List.getD_eq_getElem t.rows [] hi_lt]
      exact List.getElem_mem hi_lt
    by_cases hfm : f ∈ (if skipKey ∈ t.fieldnames then t.fieldnames
        else t.fieldnames ++ [skipKey])
    · rw [if_pos hfm, getField_setField_ne _ _ _ _ hf]
    · rw [if_neg hfm, hgf_none _ hrow_mem f hfm]
  · have hi_lt' : i < rows'.length := h2 ▸ hi_lt
    rw [getD_map_renderRow _ rows' i hi_lt', h4, getField_renderRow, if_pos hskip_mem,
      getField_setField_self]

theorem write_skip_frame_witness :
    firstMatchIdx "T1".toList
        [[(("ticket".toList : Str), ("T0".toList : Str))],
          [(("ticket".toList : Str), ("T1".toList : Str))]] = some 1 ∧
      (∀ r ∈ [[(("ticket".toList : Str), ("T0".toList : Str))],
          [(("ticket".toList : Str), ("T1".toList : Str))]],
        ∀ kv ∈ r, kv.1 ∈ [("ticket".toList : Str)]) ∧
      ∃ t', write_skip "T1".toList [(("A".toList : Str), ("x".toList : Str))]
          ⟨[("ticket".toList : Str)],
            [[(("ticket".toList : Str), ("T0".toList : Str))],
              [(("ticket".toList : Str), ("T1".toList : Str))]]⟩ = some t' ∧
        getField (t'.rows.getD 1 []) skipKey =
          writeSkipField [(("A".toList : Str), ("x".toList : Str))] := by
  have hi : firstMatchIdx "T1".toList
      [[(("ticket".toList : Str), ("T0".toList : Str))],
        [(("ticket".toList : Str), ("T1".toList : Str))]] = some 1 := by decide
  have hkeys : ∀ r ∈ [[(("ticket".toList : Str), ("T0".toList : Str))],
      [(("ticket".toList : Str), ("T1".toList : Str))]],
      ∀ kv ∈ r, kv.1 ∈ [("ticket".toList : Str)] := by decide
  obtain ⟨t', hw, -, -, -, -, hskip⟩ :=
    write_skip_frame
      ⟨[("ticket".toList : Str)],
        [[(("ticket".toList : Str), ("T0".toList : Str))],
          [(("ticket".toList : Str), ("T1".toList : Str))]]⟩
      "T1".toList [(("A".toList : Str), ("x".toList : Str))] 1 hi hkeys
  exact ⟨hi, hkeys, t', hw, hskip⟩
